import Mathlib

/-!
Verification of the livewell-nadex backtesting core: a shallow embedding of
the KPI calculator (`src/nadex_common/kpi_calculator.py`) and the simplified
backtesting script (`notebooks/archive/backtest_simplified.py`), with proofs
of the behavioural properties stated for them.

Modelling conventions:
* monetary amounts and prices are rationals (`Rat`); trading dates are
  integer day numbers (`Int`), so subtracting two dates yields the elapsed
  number of days, matching `(t2 - t1).days` on pandas timestamps;
* instrument identifiers are naturals;
* a pandas column of floats that may contain NaN (an undefined indicator
  value) is a `List (Option Rat)`, with `none` standing for NaN.
-/

namespace Nadex

/-- One simulated trade as consumed by `calculate_kpis`: the `Date`, `pnl`
and `entry_cost` columns of the trades frame. -/
structure Trade where
  date : Int
  pnl : Rat
  entry_cost : Rat
deriving Repr, DecidableEq

/-- One row of the `daily_data` table built by `calculate_kpis`: the daily
aggregate together with the cumulative, running-peak and drawdown columns. -/
structure DailyRow where
  date : Int
  pnl : Rat
  entry_cost : Rat
  cumulative_pnl : Rat
  running_max : Rat
  drawdown : Rat
deriving Repr, DecidableEq

/-- The dictionary returned by `calculate_kpis`, as a structure. -/
structure KPIRecord where
  win_rate : Rat
  total_trades : Nat
  wins : Nat
  losses : Nat
  gross_pnl : Rat
  commissions : Rat
  net_pnl : Rat
  max_drawdown : Rat
  max_drawdown_pct : Rat
  recovery_days : Int
  date_start : Option Int
  date_end : Option Int
  daily_data : List DailyRow
deriving Repr, DecidableEq

/-- Minimum of a list with a default for the empty list (`Series.min`). -/
def minimumD {α : Type} [Min α] (dflt : α) : List α → α
  | [] => dflt
  | x :: xs => xs.foldl min x

/-- Maximum of a list with a default for the empty list (`Series.max`). -/
def maximumD {α : Type} [Max α] (dflt : α) : List α → α
  | [] => dflt
  | x :: xs => xs.foldl max x

/-- `groupby('Date').agg(pnl sum, entry_cost sum)` followed by
`sort_values('Date')`: one `(date, pnl sum, entry-cost sum)` triple per
distinct date, in ascending date order. -/
def groupByDate (trades : List Trade) : List (Int × Rat × Rat) :=
  let dates := List.insertionSort (· ≤ ·) (trades.map Trade.date).dedup
  dates.map fun d =>
    (d, ((trades.filter fun t => decide (t.date = d)).map Trade.pnl).sum,
        ((trades.filter fun t => decide (t.date = d)).map Trade.entry_cost).sum)

/-- Walk the date-grouped rows computing the `cumulative_pnl`, `running_max`
and `drawdown` columns (`cumsum`, `cummax`, and their difference).  `accPnl`
is the cumulative P&L before this row; `accMax` is the running peak so far
(`none` before the first row, as `cummax` has no seed). -/
def dailyFrom (accPnl : Rat) (accMax : Option Rat) : List (Int × Rat × Rat) → List DailyRow
  | [] => []
  | (d, p, c) :: rest =>
    let cum := accPnl + p
    let run := match accMax with
      | none => cum
      | some m => max m cum
    { date := d, pnl := p, entry_cost := c, cumulative_pnl := cum,
      running_max := run, drawdown := cum - run } :: dailyFrom cum (some run) rest

/-- Default row used for the (unreachable) out-of-range index lookup. -/
def dfltRow : DailyRow := ⟨0, 0, 0, 0, 0, 0⟩

/-- `trades_by_date['drawdown'].idxmin()`: the first position attaining the
minimum of the drawdown column. -/
def maxDrawdownIdx (daily : List DailyRow) : Nat :=
  (daily.map DailyRow.drawdown).findIdx fun x =>
    decide (x = minimumD 0 (daily.map DailyRow.drawdown))

/-- Recovery time: days from the maximum-drawdown row to the first row at or
after it whose drawdown is `≥ 0`; `0` when no such row exists. -/
def recoveryDays (daily : List DailyRow) : Int :=
  match (daily.drop (maxDrawdownIdx daily)).find? (fun r => decide (0 ≤ r.drawdown)) with
  | some r => r.date - (daily.getD (maxDrawdownIdx daily) dfltRow).date
  | none => 0

/-- `calculate_kpis` from `kpi_calculator.py`. -/
def calculate_kpis (trades : List Trade) (commission_per_contract : Rat) : KPIRecord :=
  if trades = [] then
    { win_rate := 0, total_trades := 0, wins := 0, losses := 0, gross_pnl := 0,
      commissions := 0, net_pnl := 0, max_drawdown := 0, max_drawdown_pct := 0,
      recovery_days := 0, date_start := none, date_end := none, daily_data := [] }
  else
    let wins := trades.filter fun t => decide (0 < t.pnl)
    let losses := trades.filter fun t => decide (t.pnl ≤ 0)
    let total_trades := trades.length
    let win_rate := (wins.length : Rat) / (total_trades : Rat)
    let gross_pnl := (trades.map Trade.pnl).sum
    let commissions := (total_trades : Rat) * commission_per_contract
    let daily := dailyFrom 0 none (groupByDate trades)
    let dds := daily.map DailyRow.drawdown
    let max_drawdown := minimumD 0 dds
    let running_max := maximumD 0 (daily.map DailyRow.running_max)
    let recovery_days := recoveryDays daily
    { win_rate := win_rate
      total_trades := total_trades
      wins := wins.length
      losses := losses.length
      gross_pnl := gross_pnl
      commissions := commissions
      net_pnl := gross_pnl - commissions
      max_drawdown := max_drawdown
      max_drawdown_pct := if 0 < running_max then max_drawdown / running_max * 100 else 0
      recovery_days := recovery_days
      date_start := some (minimumD 0 (trades.map Trade.date))
      date_end := some (maximumD 0 (trades.map Trade.date))
      daily_data := daily }

/-! The simplified backtesting script (`backtest_simplified.py`).

A pandas float column with possible NaN entries is a `List (Option Rat)`:
`none` is NaN.  `prices.diff()` yields NaN at index 0; `delta.where(cond, 0)`
maps NaN to `0` because a NaN comparison is false; `rolling(period).mean()`
is `none` until the window holds `period` observations.  In `gain / loss`
the float quotient `positive / 0` is `+inf`, which `100 - 100/(1 + rs)`
collapses to exactly `100`, while `0 / 0` is NaN and propagates. -/

/-- Consecutive differences against the running previous value
(`prices.diff()` after the first row). -/
def deltasFrom (prev : Rat) : List Rat → List (Option Rat)
  | [] => []
  | x :: xs => some (x - prev) :: deltasFrom x xs

/-- `prices.diff()`: NaN at index 0, then consecutive differences. -/
def deltas : List Rat → List (Option Rat)
  | [] => []
  | x :: xs => none :: deltasFrom x xs

/-- `delta.where(delta > 0, 0)`: the positive part, with NaN mapped to 0. -/
def gainSeries (prices : List Rat) : List Rat :=
  (deltas prices).map fun d =>
    match d with
    | none => 0
    | some v => max v 0

/-- `-delta.where(delta < 0, 0)`: the negative part, with NaN mapped to 0. -/
def lossSeries (prices : List Rat) : List Rat :=
  (deltas prices).map fun d =>
    match d with
    | none => 0
    | some v => max (-v) 0

/-- `l.rolling(window=period).mean()`: defined from position `period - 1`
onwards as the mean of the trailing `period` entries. -/
def rollingMean (period : Nat) (l : List Rat) : List (Option Rat) :=
  (List.range l.length).map fun i =>
    if period ≤ i + 1 then some (((l.take (i + 1)).drop (i + 1 - period)).sum / (period : Rat))
    else none

/-- `calculate_rsi` from `backtest_simplified.py`.  A defined average pair
with `avg_loss = 0` and `avg_gain > 0` gives `rs = +inf` and oscillator
exactly `100`; `avg_gain = avg_loss = 0` gives `rs = NaN` and an undefined
oscillator. -/
def calculate_rsi (prices : List Rat) (period : Nat) : List (Option Rat) :=
  List.zipWith
    (fun og ol =>
      match og, ol with
      | some ag, some al =>
        if al = 0 then (if ag = 0 then none else some 100)
        else some (100 - 100 / (1 + ag / al))
      | _, _ => none)
    (rollingMean period (gainSeries prices))
    (rollingMean period (lossSeries prices))

/-- Signal from one oscillator value: BUY (1) below `oversold`, SELL (-1)
above `overbought`, else HOLD (0).  A NaN oscillator compares false on both
thresholds and yields HOLD. -/
def signalOf (oversold overbought : Rat) : Option Rat → Int
  | none => 0
  | some v => if v < oversold then 1 else if overbought < v then -1 else 0

/-- `generate_rsi_signals`: the signal column. -/
def generate_rsi_signals (prices : List Rat) (period : Nat)
    (oversold overbought : Rat) : List Int :=
  (calculate_rsi prices period).map (signalOf oversold overbought)

/-- One row of the daily-aggregated price history: `Ticker`, `Date`,
`Exp Value`, `Strike Price` and the realized `In the Money` flag. -/
structure Obs where
  ticker : Nat
  date : Int
  expValue : Rat
  strike : Rat
  itm : Bool
deriving Repr, DecidableEq

/-- One simulated trade produced by the backtest engine. -/
structure SimulatedTrade where
  ticker : Nat
  date : Int
  expValue : Rat
  strike : Rat
  signal : Int
  entry_cost : Rat
  probability_itm : Rat
  pnl : Rat
deriving Repr, DecidableEq

/-- Backtest of a single instrument, parametric in the pricing function
(`calculate_fair_entry_cost` in the script; its normal CDF makes it
real-valued, so it is a parameter here): signals from the instrument's own
series, one trade per non-HOLD row, binary P&L against a 10.0 payout. -/
def backtest_ticker (pricer : Rat → Rat → Rat × Rat) (rows : List Obs)
    (period : Nat) (oversold overbought : Rat) : List SimulatedTrade :=
  let sigs := generate_rsi_signals (rows.map Obs.expValue) period oversold overbought
  (rows.zip sigs).filterMap fun rs =>
    if rs.2 ≠ 0 then
      some { ticker := rs.1.ticker, date := rs.1.date, expValue := rs.1.expValue,
             strike := rs.1.strike, signal := rs.2,
             entry_cost := (pricer rs.1.expValue rs.1.strike).1,
             probability_itm := (pricer rs.1.expValue rs.1.strike).2,
             pnl := if rs.1.itm then 10 - (pricer rs.1.expValue rs.1.strike).1
                    else -(pricer rs.1.expValue rs.1.strike).1 }
    else none

/-- `data['Ticker'].unique()`. -/
def tickersOf (data : List Obs) : List Nat :=
  (data.map Obs.ticker).dedup

/-- `backtest_strategy`: per-instrument backtests, concatenated. -/
def backtest_strategy (pricer : Rat → Rat → Rat × Rat) (data : List Obs)
    (period : Nat) (oversold overbought : Rat) : List SimulatedTrade :=
  (tickersOf data).flatMap fun tk =>
    backtest_ticker pricer (data.filter fun r => decide (r.ticker = tk))
      period oversold overbought

/-- `(instrument, date)` grouping key of a raw price row. -/
def keyOf (r : Obs) : Nat × Int := (r.ticker, r.date)

/-- `abs(raw_data['Exp Value'] - raw_data['Strike Price'])`. -/
def strikeDistance (r : Obs) : Rat := |r.expValue - r.strike|

/-- Keep the row with the strictly smaller strike distance; on a tie keep
the earlier one (pandas `idxmin` returns the first minimiser). -/
def betterRow (a b : Obs) : Obs :=
  if strikeDistance b < strikeDistance a then b else a

/-- First row of minimal strike distance in a group (`idxmin` + `loc`). -/
def firstMin : List Obs → Option Obs
  | [] => none
  | a :: t => some (t.foldl betterRow a)

/-- `sort_values(['Ticker', 'Date'])` ordering. -/
def keyLE (a b : Obs) : Prop := toLex (keyOf a) ≤ toLex (keyOf b)

instance : DecidableRel keyLE := fun a b =>
  inferInstanceAs (Decidable (toLex (keyOf a) ≤ toLex (keyOf b)))

instance : IsTotal Obs keyLE := ⟨fun _ _ => le_total _ _⟩

instance : IsTrans Obs keyLE := ⟨fun _ _ _ h1 h2 => le_trans h1 h2⟩

/-- `aggregate_to_daily`: keep, per `(Ticker, Date)` group, the first row of
minimal strike distance, then sort by `(Ticker, Date)`.  The key set is
collected with `dedup`; since the surviving keys are pairwise distinct the
final sort produces the same table whatever the intermediate group order. -/
def aggregate_to_daily (raw : List Obs) : List Obs :=
  let keys := (raw.map keyOf).dedup
  let picked := keys.filterMap fun k => firstMin (raw.filter fun r => decide (keyOf r = k))
  List.insertionSort keyLE picked

/-- One row of the backtest-results frame consumed by `calculate_metrics`. -/
structure BTRow where
  signal : Int
  pnl : Rat
  entry_cost : Rat
deriving Repr, DecidableEq

/-- The metrics dictionary of `calculate_metrics`.  The `sharpe_ratio`
entry is not modelled: it multiplies by a real square root and no other
field depends on it. -/
structure MetricsRecord where
  total_trades : Nat
  winning_trades : Nat
  losing_trades : Nat
  win_rate : Rat
  total_pnl : Rat
  avg_win : Rat
  avg_loss : Rat
  avg_entry_cost : Rat
  total_capital : Rat
  total_return_pct : Rat
deriving Repr, DecidableEq

/-- `calculate_metrics` from `backtest_simplified.py`.  Note the strict
`pnl < 0` for losing trades.  The source's empty branch returns a reduced
dictionary with only three keys, all zero; the unmentioned fields are
modelled as `0`. -/
def calculate_metrics (backtest_results : List BTRow) : MetricsRecord :=
  let trades := backtest_results.filter fun r => decide (r.signal ≠ 0)
  if trades = [] then
    { total_trades := 0, winning_trades := 0, losing_trades := 0, win_rate := 0,
      total_pnl := 0, avg_win := 0, avg_loss := 0, avg_entry_cost := 0,
      total_capital := 0, total_return_pct := 0 }
  else
    let wins := trades.filter fun r => decide (0 < r.pnl)
    let losses := trades.filter fun r => decide (r.pnl < 0)
    { total_trades := trades.length
      winning_trades := wins.length
      losing_trades := losses.length
      win_rate := (wins.length : Rat) / (trades.length : Rat)
      total_pnl := (trades.map BTRow.pnl).sum
      avg_win := if 0 < wins.length then (wins.map BTRow.pnl).sum / (wins.length : Rat) else 0
      avg_loss := if 0 < losses.length then
        (losses.map BTRow.pnl).sum / (losses.length : Rat) else 0
      avg_entry_cost := (trades.map BTRow.entry_cost).sum / (trades.length : Rat)
      total_capital := (trades.map BTRow.entry_cost).sum
      total_return_pct := if 0 < (trades.map BTRow.entry_cost).sum then
        (trades.map BTRow.pnl).sum / (trades.map BTRow.entry_cost).sum * 100 else 0 }

/-! The results container (`backtest_results.py`).  The blob store is the
opaque collaborator `store : bucket → key → Option payload`; a `none`
lookup is boto3's missing-object error.  Every failure inside one of the
three `try` blocks of `load_from_s3` is re-raised as `FileNotFoundError`,
so the only error the function can surface is `fileNotFound`. -/

/-- Errors a results load can surface.  `generic` stands for any other
exception type; `load_from_s3` never produces it. -/
inductive LoadError where
  | fileNotFound (key : String)
  | generic (msg : String)
deriving Repr, DecidableEq

/-- `{prefix}/{date}`, or `{prefix}/latest` when no date is given. -/
def runFolderPath (pre : String) (date : Option String) : String :=
  pre ++ "/" ++ (match date with
    | some d => d
    | none => "latest")

/-- `BacktestResults.load_from_s3`: fetch the three artifacts of a saved
run, failing with `fileNotFound` on the first missing one. -/
def load_from_s3 {α : Type} (store : String → String → Option α) (bucket : String)
    (date : Option String) (pre : String) : Except LoadError (α × α × α) :=
  let folderPath := runFolderPath pre date
  match store bucket (folderPath ++ "/trades.csv") with
  | none => Except.error (LoadError.fileNotFound (folderPath ++ "/trades.csv"))
  | some trades =>
    match store bucket (folderPath ++ "/kpi_summary.json") with
    | none => Except.error (LoadError.fileNotFound (folderPath ++ "/kpi_summary.json"))
    | some kpis =>
      match store bucket (folderPath ++ "/daily_metrics.csv") with
      | none => Except.error (LoadError.fileNotFound (folderPath ++ "/daily_metrics.csv"))
      | some daily => Except.ok (trades, kpis, daily)

/-! The probability-based pricing model, over the reals. -/

open MeasureTheory in
/-- The standard normal cumulative distribution function (`norm.cdf`). -/
noncomputable def normCdf (z : Real) : Real :=
  ∫ x in Set.Iic z, ProbabilityTheory.gaussianPDFReal 0 1 x

/-- `calculate_probability_itm`: the ITM probability, from the z-score of
the expected value against the strike, clamped to `[0.05, 0.95]`; a
non-positive volatility is floored at `0.01`. -/
noncomputable def calculate_probability_itm
    (exp_value strike_price volatility : Real) : Real :=
  let vol := if volatility ≤ 0 then 0.01 else volatility
  let z_score := (exp_value - strike_price) / (strike_price * vol)
  max 0.05 (min 0.95 (normCdf z_score))

/-- `calculate_fair_entry_cost`: `(entry_cost, probability_itm)` with
`entry_cost = max_payout * probability`. -/
noncomputable def calculate_fair_entry_cost
    (exp_value strike_price max_payout volatility : Real) : Real × Real :=
  (max_payout * calculate_probability_itm exp_value strike_price volatility,
   calculate_probability_itm exp_value strike_price volatility)

theorem minimumD_cons {α : Type} [LinearOrder α] (d x : α) (xs : List α) :
    minimumD d (x :: xs) = xs.foldl min x := rfl

theorem foldl_min_mem {α : Type} [LinearOrder α] :
    ∀ (xs : List α) (x : α), xs.foldl min x ∈ x :: xs := by
  intro xs
  induction xs with
  | nil => intro x; simp
  | cons y ys ih =>
    intro x
    have h := ih (min x y)
    rcases List.mem_cons.mp h with h1 | h1
    · rcases min_choice x y with h2 | h2 <;> rw [List.foldl_cons, h1, h2] <;> simp
    · simp only [List.foldl_cons]
      exact List.mem_cons.mpr (Or.inr (List.mem_cons.mpr (Or.inr h1)))

theorem foldl_min_le {α : Type} [LinearOrder α] :
    ∀ (xs : List α) (x y : α), y ∈ x :: xs → xs.foldl min x ≤ y := by
  intro xs
  induction xs with
  | nil =>
    intro x y hy
    rcases List.mem_cons.mp hy with h | h
    · simp [h]
    · simp at h
  | cons z zs ih =>
    intro x y hy
    rw [List.foldl_cons]
    rcases List.mem_cons.mp hy with h | h
    · calc zs.foldl min (min x z) ≤ min x z := ih (min x z) (min x z) (List.mem_cons_self _ _)
        _ ≤ x := min_le_left _ _
        _ = y := h.symm
    · rcases List.mem_cons.mp h with h1 | h1
      · calc zs.foldl min (min x z) ≤ min x z := ih (min x z) (min x z) (List.mem_cons_self _ _)
          _ ≤ z := min_le_right _ _
          _ = y := h1.symm
      · exact ih (min x z) y (List.mem_cons.mpr (Or.inr h1))

theorem minimumD_mem {α : Type} [LinearOrder α] (d : α) (l : List α) (h : l ≠ []) :
    minimumD d l ∈ l := by
  match l with
  | [] => exact absurd rfl h
  | x :: xs => exact foldl_min_mem xs x

theorem minimumD_le {α : Type} [LinearOrder α] (d : α) (l : List α) (y : α) (hy : y ∈ l) :
    minimumD d l ≤ y := by
  match l with
  | [] => simp at hy
  | x :: xs => exact foldl_min_le xs x y hy

theorem length_dailyFrom (g : List (Int × Rat × Rat)) :
    ∀ (acc : Rat) (m : Option Rat), (dailyFrom acc m g).length = g.length := by
  induction g with
  | nil => intro acc m; rfl
  | cons hd tl ih =>
    intro acc m
    obtain ⟨d, p, c⟩ := hd
    simp [dailyFrom, ih]

/-- Every row built by `dailyFrom` has `drawdown = cumulative_pnl - running_max`
and the running peak dominates the row's own cumulative P&L. -/
theorem dailyFrom_row_spec (g : List (Int × Rat × Rat)) :
    ∀ (acc : Rat) (m : Option Rat), ∀ r ∈ dailyFrom acc m g,
      r.drawdown = r.cumulative_pnl - r.running_max ∧ r.cumulative_pnl ≤ r.running_max := by
  induction g with
  | nil => intro acc m r hr; simp [dailyFrom] at hr
  | cons hd tl ih =>
    intro acc m r hr
    obtain ⟨d, p, c⟩ := hd
    rcases List.mem_cons.mp hr with h | h
    · subst h
      constructor
      · rfl
      · match m with
        | none => exact le_refl _
        | some m₀ => exact le_max_right _ _
    · exact ih _ _ r h

/-- The `running_max` column of `dailyFrom` with a `some` seed: it bounds the
seed, dominates every cumulative value up to the row, and is attained by one
of them or is the seed itself. -/
theorem dailyFrom_run_spec_some (g : List (Int × Rat × Rat)) :
    ∀ (acc m₀ : Rat) (i : Nat) (hi : i < (dailyFrom acc (some m₀) g).length),
      m₀ ≤ ((dailyFrom acc (some m₀) g).get ⟨i, hi⟩).running_max ∧
      (∀ j (hj : j < (dailyFrom acc (some m₀) g).length), j ≤ i →
        ((dailyFrom acc (some m₀) g).get ⟨j, hj⟩).cumulative_pnl
          ≤ ((dailyFrom acc (some m₀) g).get ⟨i, hi⟩).running_max) ∧
      ((∃ j, ∃ hj : j < (dailyFrom acc (some m₀) g).length, j ≤ i ∧
          ((dailyFrom acc (some m₀) g).get ⟨j, hj⟩).cumulative_pnl
            = ((dailyFrom acc (some m₀) g).get ⟨i, hi⟩).running_max) ∨
        ((dailyFrom acc (some m₀) g).get ⟨i, hi⟩).running_max = m₀) := by
  induction g with
  | nil => intro acc m₀ i hi; simp [dailyFrom] at hi
  | cons hd tl ih =>
    intro acc m₀ i hi
    obtain ⟨d, p, c⟩ := hd
    cases i with
    | zero =>
      refine ⟨le_max_left _ _, ?_, ?_⟩
      · intro j hj hj0
        have hj' : j = 0 := Nat.le_zero.mp hj0
        subst hj'
        exact le_max_right _ _
      · rcases max_cases m₀ (acc + p) with ⟨hmax, _⟩ | ⟨hmax, _⟩
        · exact Or.inr hmax
        · exact Or.inl ⟨0, hi, le_refl 0, hmax.symm⟩
    | succ k =>
      have hi' : k < (dailyFrom (acc + p) (some (max m₀ (acc + p))) tl).length := by
        have h1 := hi
        rw [length_dailyFrom] at h1
        rw [length_dailyFrom]
        exact Nat.lt_of_succ_lt_succ h1
      obtain ⟨ihA, ihB, ihC⟩ := ih (acc + p) (max m₀ (acc + p)) k hi'
      refine ⟨le_trans (le_max_left _ _) ihA, ?_, ?_⟩
      · intro j hj hjk
        cases j with
        | zero => exact le_trans (le_max_right m₀ (acc + p)) ihA
        | succ j' =>
          have hj' : j' < (dailyFrom (acc + p) (some (max m₀ (acc + p))) tl).length := by
            have h1 := hj
            rw [length_dailyFrom] at h1
            rw [length_dailyFrom]
            exact Nat.lt_of_succ_lt_succ h1
          exact ihB j' hj' (Nat.le_of_succ_le_succ hjk)
      · rcases ihC with ⟨j, hj, hjk, hattain⟩ | hseed
        · refine Or.inl ⟨j + 1, ?_, Nat.succ_le_succ hjk, hattain⟩
          rw [length_dailyFrom]
          rw [length_dailyFrom] at hj
          exact Nat.succ_lt_succ hj
        · have hsucc : ((dailyFrom acc (some m₀) ((d, p, c) :: tl)).get ⟨k + 1, hi⟩)
              = ((dailyFrom (acc + p) (some (max m₀ (acc + p))) tl).get ⟨k, hi'⟩) := rfl
          rcases max_cases m₀ (acc + p) with ⟨hmax, _⟩ | ⟨hmax, _⟩
          · refine Or.inr ?_
            rw [hsucc, hseed, hmax]
          · have h0lt : 0 < (dailyFrom acc (some m₀) ((d, p, c) :: tl)).length :=
              lt_of_le_of_lt (Nat.zero_le _) hi
            refine Or.inl ⟨0, h0lt, Nat.zero_le _, ?_⟩
            have h0 : ((dailyFrom acc (some m₀) ((d, p, c) :: tl)).get
                ⟨0, h0lt⟩).cumulative_pnl = acc + p := rfl
            rw [h0, hsucc, hseed, hmax]

/-- The `running_max` column of `dailyFrom` started from the empty seed is
the running maximum of the `cumulative_pnl` column: it dominates all
cumulative values up to the row and is attained by one of them. -/
theorem dailyFrom_run_spec (g : List (Int × Rat × Rat)) (acc : Rat) (i : Nat)
    (hi : i < (dailyFrom acc none g).length) :
    (∀ j (hj : j < (dailyFrom acc none g).length), j ≤ i →
      ((dailyFrom acc none g).get ⟨j, hj⟩).cumulative_pnl
        ≤ ((dailyFrom acc none g).get ⟨i, hi⟩).running_max) ∧
    (∃ j, ∃ hj : j < (dailyFrom acc none g).length, j ≤ i ∧
      ((dailyFrom acc none g).get ⟨j, hj⟩).cumulative_pnl
        = ((dailyFrom acc none g).get ⟨i, hi⟩).running_max) := by
  match g with
  | [] => simp [dailyFrom] at hi
  | (d, p, c) :: tl =>
    cases i with
    | zero =>
      refine ⟨?_, ⟨0, hi, le_refl 0, rfl⟩⟩
      intro j hj hj0
      have hj' : j = 0 := Nat.le_zero.mp hj0
      subst hj'
      exact le_refl _
    | succ k =>
      have hi' : k < (dailyFrom (acc + p) (some (acc + p)) tl).length := by
        have h1 := hi
        rw [length_dailyFrom] at h1
        rw [length_dailyFrom]
        exact Nat.lt_of_succ_lt_succ h1
      obtain ⟨ihA, ihB, ihC⟩ := dailyFrom_run_spec_some tl (acc + p) (acc + p) k hi'
      refine ⟨?_, ?_⟩
      · intro j hj hjk
        cases j with
        | zero => exact ihA
        | succ j' =>
          have hj' : j' < (dailyFrom (acc + p) (some (acc + p)) tl).length := by
            have h1 := hj
            rw [length_dailyFrom] at h1
            rw [length_dailyFrom]
            exact Nat.lt_of_succ_lt_succ h1
          exact ihB j' hj' (Nat.le_of_succ_le_succ hjk)
      · rcases ihC with ⟨j, hj, hjk, hattain⟩ | hseed
        · refine ⟨j + 1, ?_, Nat.succ_le_succ hjk, hattain⟩
          rw [length_dailyFrom]
          rw [length_dailyFrom] at hj
          exact Nat.succ_lt_succ hj
        · have h0lt : 0 < (dailyFrom acc none ((d, p, c) :: tl)).length :=
            lt_of_le_of_lt (Nat.zero_le _) hi
          have hsucc : ((dailyFrom acc none ((d, p, c) :: tl)).get ⟨k + 1, hi⟩)
              = ((dailyFrom (acc + p) (some (acc + p)) tl).get ⟨k, hi'⟩) := rfl
          have h0 : ((dailyFrom acc none ((d, p, c) :: tl)).get
              ⟨0, h0lt⟩).cumulative_pnl = acc + p := rfl
          refine ⟨0, h0lt, Nat.zero_le _, ?_⟩
          rw [h0, hsucc, hseed]

theorem groupByDate_ne_nil (trades : List Trade) (h : trades ≠ []) :
    groupByDate trades ≠ [] := by
  intro hc
  apply h
  have h1 : (List.insertionSort (· ≤ ·) (trades.map Trade.date).dedup) = [] :=
    List.map_eq_nil_iff.mp hc
  have h2 : (trades.map Trade.date).dedup.length = 0 := by
    have := (List.perm_insertionSort (· ≤ ·) (trades.map Trade.date).dedup).length_eq
    rw [h1] at this
    simpa using this.symm
  have h3 : (trades.map Trade.date).dedup = [] := List.length_eq_zero.mp h2
  have h4 : trades.map Trade.date = [] := (List.dedup_eq_nil _).mp h3
  exact List.map_eq_nil_iff.mp h4

/-- Counting partition: every trade has `pnl > 0` or `pnl ≤ 0`, never both. -/
theorem length_filter_pos_add_nonpos (trades : List Trade) :
    (trades.filter fun t => decide (0 < t.pnl)).length
      + (trades.filter fun t => decide (t.pnl ≤ 0)).length = trades.length := by
  induction trades with
  | nil => rfl
  | cons t ts ih =>
    by_cases h : 0 < t.pnl
    · have h2 : ¬ t.pnl ≤ 0 := not_le.mpr h
      simp [List.filter_cons, h, h2]
      omega
    · have h2 : t.pnl ≤ 0 := not_lt.mp h
      simp [List.filter_cons, h, h2]
      omega

end Nadex

/-- C1: for a non-empty trade set, `calculate_kpis` counts `pnl > 0` trades
as wins, `pnl ≤ 0` trades (zero included) as losses, the two counts
partition the trade set, and `win_rate` is `wins / total_trades`. -/
theorem calculate_kpis_win_loss_boundary (trades : List Nadex.Trade) (c : Rat)
    (h : trades ≠ []) :
    (Nadex.calculate_kpis trades c).wins
        = (trades.filter fun t => decide (0 < t.pnl)).length ∧
    (Nadex.calculate_kpis trades c).losses
        = (trades.filter fun t => decide (t.pnl ≤ 0)).length ∧
    (Nadex.calculate_kpis trades c).wins + (Nadex.calculate_kpis trades c).losses
        = (Nadex.calculate_kpis trades c).total_trades ∧
    (Nadex.calculate_kpis trades c).win_rate
        = ((Nadex.calculate_kpis trades c).wins : Rat)
            / ((Nadex.calculate_kpis trades c).total_trades : Rat) := by
  refine ⟨by simp [Nadex.calculate_kpis, h], by simp [Nadex.calculate_kpis, h], ?_,
    by simp [Nadex.calculate_kpis, h]⟩
  simpa [Nadex.calculate_kpis, h] using Nadex.length_filter_pos_add_nonpos trades

/-- C1 witness: a concrete three-trade set with a zero-P&L trade. -/
theorem calculate_kpis_win_loss_boundary_witness :
    ([⟨0, 3, 5⟩, ⟨1, 0, 5⟩, ⟨2, -2, 5⟩] : List Nadex.Trade) ≠ [] ∧
    (Nadex.calculate_kpis [⟨0, 3, 5⟩, ⟨1, 0, 5⟩, ⟨2, -2, 5⟩] 1).wins = 1 ∧
    (Nadex.calculate_kpis [⟨0, 3, 5⟩, ⟨1, 0, 5⟩, ⟨2, -2, 5⟩] 1).losses = 2 := by
  have h := calculate_kpis_win_loss_boundary
    [⟨0, 3, 5⟩, ⟨1, 0, 5⟩, ⟨2, -2, 5⟩] 1 (by decide)
  exact ⟨by decide, by rw [h.1]; decide, by rw [h.2.1]; decide⟩

namespace Nadex

theorem calculate_kpis_daily_data_eq (trades : List Trade) (c : Rat) (h : trades ≠ []) :
    (calculate_kpis trades c).daily_data = dailyFrom 0 none (groupByDate trades) := by
  simp [calculate_kpis, h]

theorem calculate_kpis_max_drawdown_eq (trades : List Trade) (c : Rat) (h : trades ≠ []) :
    (calculate_kpis trades c).max_drawdown
      = minimumD 0 ((dailyFrom 0 none (groupByDate trades)).map DailyRow.drawdown) := by
  simp [calculate_kpis, h]

theorem calculate_kpis_recovery_days_eq (trades : List Trade) (c : Rat) (h : trades ≠ []) :
    (calculate_kpis trades c).recovery_days
      = recoveryDays (dailyFrom 0 none (groupByDate trades)) := by
  simp [calculate_kpis, h]

theorem daily_ne_nil (trades : List Trade) (h : trades ≠ []) :
    dailyFrom 0 none (groupByDate trades) ≠ [] := by
  intro hc
  have h1 : (dailyFrom 0 none (groupByDate trades)).length = (groupByDate trades).length :=
    length_dailyFrom _ 0 none
  rw [hc] at h1
  exact groupByDate_ne_nil trades h (List.length_eq_zero.mp h1.symm)

end Nadex

/-- C6: for a non-empty trade set, every row of the daily table satisfies
`drawdown = cumulative_pnl - running_max` with `drawdown ≤ 0`, the
`running_max` column is the running maximum of `cumulative_pnl` (it
dominates every earlier cumulative value and is attained by one of them),
and `max_drawdown` is the minimum of the drawdown column (it is one of the
drawdown values and bounds all of them from below). -/
theorem calculate_kpis_drawdown_spec (trades : List Nadex.Trade) (c : Rat)
    (h : trades ≠ []) :
    (∀ r ∈ (Nadex.calculate_kpis trades c).daily_data,
        r.drawdown = r.cumulative_pnl - r.running_max ∧ r.drawdown ≤ 0) ∧
    (∀ i (hi : i < (Nadex.calculate_kpis trades c).daily_data.length)
        j (hj : j < (Nadex.calculate_kpis trades c).daily_data.length), j ≤ i →
        ((Nadex.calculate_kpis trades c).daily_data.get ⟨j, hj⟩).cumulative_pnl
          ≤ ((Nadex.calculate_kpis trades c).daily_data.get ⟨i, hi⟩).running_max) ∧
    (∀ i (hi : i < (Nadex.calculate_kpis trades c).daily_data.length),
        ∃ j, ∃ hj : j < (Nadex.calculate_kpis trades c).daily_data.length, j ≤ i ∧
          ((Nadex.calculate_kpis trades c).daily_data.get ⟨j, hj⟩).cumulative_pnl
            = ((Nadex.calculate_kpis trades c).daily_data.get ⟨i, hi⟩).running_max) ∧
    (Nadex.calculate_kpis trades c).max_drawdown
        ∈ (Nadex.calculate_kpis trades c).daily_data.map Nadex.DailyRow.drawdown ∧
    (∀ r ∈ (Nadex.calculate_kpis trades c).daily_data,
        (Nadex.calculate_kpis trades c).max_drawdown ≤ r.drawdown) := by
  rw [Nadex.calculate_kpis_daily_data_eq trades c h,
    Nadex.calculate_kpis_max_drawdown_eq trades c h]
  have hmapne : ((Nadex.dailyFrom 0 none (Nadex.groupByDate trades)).map
      Nadex.DailyRow.drawdown) ≠ [] := by
    intro hc
    exact Nadex.daily_ne_nil trades h (List.map_eq_nil_iff.mp hc)
  refine ⟨?_, ?_, ?_, ?_, ?_⟩
  · intro r hr
    obtain ⟨heq, hle⟩ := Nadex.dailyFrom_row_spec (Nadex.groupByDate trades) 0 none r hr
    exact ⟨heq, by rw [heq]; exact sub_nonpos.mpr hle⟩
  · intro i hi j hj hji
    exact (Nadex.dailyFrom_run_spec (Nadex.groupByDate trades) 0 i hi).1 j hj hji
  · intro i hi
    exact (Nadex.dailyFrom_run_spec (Nadex.groupByDate trades) 0 i hi).2
  · exact Nadex.minimumD_mem 0 _ hmapne
  · intro r hr
    exact Nadex.minimumD_le 0 _ _ (List.mem_map_of_mem _ hr)

/-- C6 witness: the minimum-drawdown value of a concrete two-trade run is
one of the drawdown values of its daily table. -/
theorem calculate_kpis_drawdown_spec_witness :
    ([⟨0, 5, 1⟩, ⟨1, -3, 1⟩] : List Nadex.Trade) ≠ [] ∧
    (Nadex.calculate_kpis [⟨0, 5, 1⟩, ⟨1, -3, 1⟩] 1).max_drawdown
      ∈ (Nadex.calculate_kpis [⟨0, 5, 1⟩, ⟨1, -3, 1⟩] 1).daily_data.map
          Nadex.DailyRow.drawdown :=
  ⟨by decide, (calculate_kpis_drawdown_spec [⟨0, 5, 1⟩, ⟨1, -3, 1⟩] 1 (by decide)).2.2.2.1⟩

namespace Nadex

/-- Indexing into a dropped list, in `get` form. -/
theorem get_drop_eq {α : Type} (l : List α) (i k : Nat) (hk : k < (l.drop i).length)
    (h2 : i + k < l.length) :
    (l.drop i).get ⟨k, hk⟩ = l.get ⟨i + k, h2⟩ :=
  List.getElem_drop l

/-- `get` respects equality of the underlying indices. -/
theorem get_congr {α : Type} (l : List α) (a b : Nat) (ha : a < l.length)
    (hb : b < l.length) (h : a = b) : l.get ⟨a, ha⟩ = l.get ⟨b, hb⟩ := by
  subst h
  rfl

/-- `find?` returns the first matching element: there is a position holding
the result, and the predicate fails strictly before it. -/
theorem find?_some_first {α : Type} (p : α → Bool) :
    ∀ (l : List α) (a : α), l.find? p = some a →
      ∃ n, ∃ hn : n < l.length, l.get ⟨n, hn⟩ = a ∧
        ∀ k (hk : k < l.length), k < n → p (l.get ⟨k, hk⟩) = false := by
  intro l
  induction l with
  | nil => intro a h; simp at h
  | cons x xs ih =>
    intro a h
    by_cases hx : p x
    · rw [List.find?_cons_of_pos _ hx] at h
      refine ⟨0, Nat.succ_pos _, (Option.some.inj h).symm ▸ rfl, ?_⟩
      intro k hk hk0
      exact absurd hk0 (Nat.not_lt_zero k)
    · rw [List.find?_cons_of_neg _ hx] at h
      obtain ⟨n, hn, hget, hfirst⟩ := ih a h
      refine ⟨n + 1, Nat.succ_lt_succ hn, hget, ?_⟩
      intro k hk hkn
      cases k with
      | zero => exact Bool.eq_false_iff.mpr hx
      | succ k' => exact hfirst k' (Nat.lt_of_succ_lt_succ hk) (Nat.lt_of_succ_lt_succ hkn)

/-- `findIdx` finds the first index satisfying the predicate: the element
there satisfies it and every earlier element fails it. -/
theorem findIdx_spec {α : Type} (p : α → Bool) :
    ∀ (xs : List α) (h : xs.findIdx p < xs.length),
      p (xs.get ⟨xs.findIdx p, h⟩) = true ∧
      ∀ j (hj : j < xs.length), j < xs.findIdx p → p (xs.get ⟨j, hj⟩) = false := by
  intro xs
  induction xs with
  | nil => intro h; simp at h
  | cons a t ih =>
    intro h
    cases hpa : p a with
    | true =>
      have h0 : (a :: t).findIdx p = 0 := by simp [List.findIdx_cons, hpa]
      constructor
      · rw [get_congr (a :: t) _ 0 h (by simp) h0]
        exact hpa
      · intro j hj hjlt
        rw [h0] at hjlt
        exact absurd hjlt (Nat.not_lt_zero j)
    | false =>
      have hstep : (a :: t).findIdx p = t.findIdx p + 1 := by
        simp [List.findIdx_cons, hpa]
      have ht : t.findIdx p < t.length := by
        have h2 := h
        rw [hstep] at h2
        simpa using h2
      obtain ⟨ih1, ih2⟩ := ih ht
      constructor
      · rw [get_congr (a :: t) _ (t.findIdx p + 1) h
          (by simpa using Nat.succ_lt_succ ht) hstep]
        exact ih1
      · intro j hj hjlt
        rw [hstep] at hjlt
        cases j with
        | zero => exact hpa
        | succ j' => exact ih2 j' (by simpa using hj) (Nat.lt_of_succ_lt_succ hjlt)

/-- Full characterisation of `recoveryDays` on a non-empty daily table:
there is a first row attaining the minimum drawdown, and the result is
the day difference to the first row at or after it with drawdown `≥ 0`,
or `0` when every such row has negative drawdown. -/
theorem recoveryDays_spec (daily : List DailyRow) (h : daily ≠ []) :
    ∃ i, ∃ hi : i < daily.length,
      (daily.get ⟨i, hi⟩).drawdown = minimumD 0 (daily.map DailyRow.drawdown) ∧
      (∀ j (hj : j < daily.length), j < i →
        (daily.get ⟨j, hj⟩).drawdown ≠ minimumD 0 (daily.map DailyRow.drawdown)) ∧
      ((∀ j (hj : j < daily.length), i ≤ j → (daily.get ⟨j, hj⟩).drawdown < 0) →
        recoveryDays daily = 0) ∧
      (∀ j (hj : j < daily.length), i ≤ j → 0 ≤ (daily.get ⟨j, hj⟩).drawdown →
        (∀ m (hm : m < daily.length), i ≤ m → m < j → (daily.get ⟨m, hm⟩).drawdown < 0) →
        recoveryDays daily = (daily.get ⟨j, hj⟩).date - (daily.get ⟨i, hi⟩).date) := by
  have hne : daily.map DailyRow.drawdown ≠ [] := by
    intro hc
    exact h (List.map_eq_nil_iff.mp hc)
  have hmem : minimumD 0 (daily.map DailyRow.drawdown) ∈ daily.map DailyRow.drawdown :=
    minimumD_mem 0 _ hne
  have hex : ∃ x ∈ daily.map DailyRow.drawdown,
      (fun x => decide (x = minimumD 0 (daily.map DailyRow.drawdown))) x = true :=
    ⟨_, hmem, by simp⟩
  have hilt : maxDrawdownIdx daily < (daily.map DailyRow.drawdown).length :=
    List.findIdx_lt_length_of_exists hex
  have hilt' : maxDrawdownIdx daily < daily.length := by simpa using hilt
  have hgetmap : ∀ (k : Nat) (hk : k < (daily.map DailyRow.drawdown).length)
      (hk' : k < daily.length),
      (daily.map DailyRow.drawdown).get ⟨k, hk⟩ = (daily.get ⟨k, hk'⟩).drawdown := by
    intro k hk hk'
    simp [List.get_eq_getElem, List.getElem_map]
  have hspec := findIdx_spec
    (fun x => decide (x = minimumD 0 (daily.map DailyRow.drawdown)))
    (daily.map DailyRow.drawdown) hilt
  have hdi : (daily.get ⟨maxDrawdownIdx daily, hilt'⟩).drawdown
      = minimumD 0 (daily.map DailyRow.drawdown) := by
    have h1 := of_decide_eq_true hspec.1
    rw [← hgetmap _ hilt hilt']
    exact h1
  refine ⟨maxDrawdownIdx daily, hilt', hdi, ?_, ?_, ?_⟩
  · intro j hj hji hcontra
    have hj2 : j < (daily.map DailyRow.drawdown).length := by simpa using hj
    have hval : (daily.map DailyRow.drawdown).get ⟨j, hj2⟩
        = minimumD 0 (daily.map DailyRow.drawdown) := by
      rw [hgetmap _ hj2 hj]
      exact hcontra
    have hfalse := hspec.2 j hj2 hji
    rw [hval] at hfalse
    simp at hfalse
  · intro hall
    have hnone : (daily.drop (maxDrawdownIdx daily)).find?
        (fun r => decide (0 ≤ r.drawdown)) = none := by
      rw [List.find?_eq_none]
      intro x hx
      obtain ⟨k, hk, hxe⟩ := List.mem_iff_getElem.mp hx
      have hk2 : maxDrawdownIdx daily + k < daily.length := by
        have := List.length_drop (maxDrawdownIdx daily) daily
        omega
      have hxval : x = daily.get ⟨maxDrawdownIdx daily + k, hk2⟩ := by
        rw [← hxe, List.getElem_drop, List.get_eq_getElem]
      have hneg := hall (maxDrawdownIdx daily + k) hk2 (Nat.le_add_right _ _)
      rw [← hxval] at hneg
      simp [not_le.mpr hneg]
    unfold recoveryDays
    rw [hnone]
  · intro j hj hij hge hfirst
    cases hfind : (daily.drop (maxDrawdownIdx daily)).find?
        (fun r => decide (0 ≤ r.drawdown)) with
    | none =>
      exfalso
      have hall := List.find?_eq_none.mp hfind
      have hk : j - maxDrawdownIdx daily < (daily.drop (maxDrawdownIdx daily)).length := by
        rw [List.length_drop]
        omega
      have hk2 : maxDrawdownIdx daily + (j - maxDrawdownIdx daily) < daily.length := by
        omega
      have hjmem : daily.get ⟨j, hj⟩ ∈ daily.drop (maxDrawdownIdx daily) := by
        have heq : (daily.drop (maxDrawdownIdx daily)).get ⟨j - maxDrawdownIdx daily, hk⟩
            = daily.get ⟨j, hj⟩ := by
          rw [get_drop_eq daily _ _ hk hk2]
          exact get_congr daily _ _ hk2 hj (by omega)
        rw [← heq]
        exact List.get_mem _ _ _
      have hmm := hall _ hjmem
      simp only [decide_eq_true_eq] at hmm
      exact hmm hge
    | some a =>
      obtain ⟨n, hn, hget, hfirstk⟩ := find?_some_first _ _ a hfind
      have hpa : (0 : Rat) ≤ a.drawdown := by
        have := List.find?_some hfind
        exact of_decide_eq_true this
      have hin : maxDrawdownIdx daily + n < daily.length := by
        have := List.length_drop (maxDrawdownIdx daily) daily
        omega
      have ha : a = daily.get ⟨maxDrawdownIdx daily + n, hin⟩ := by
        rw [← hget]
        exact get_drop_eq daily _ _ hn hin
      have heqj : maxDrawdownIdx daily + n = j := by
        rcases Nat.lt_trichotomy (maxDrawdownIdx daily + n) j with hlt | heq | hgt
        · exfalso
          have := hfirst (maxDrawdownIdx daily + n) hin (Nat.le_add_right _ _) hlt
          rw [← ha] at this
          exact absurd this (not_lt.mpr hpa)
        · exact heq
        · exfalso
          have hk : j - maxDrawdownIdx daily < (daily.drop (maxDrawdownIdx daily)).length := by
            rw [List.length_drop]
            omega
          have hkn : j - maxDrawdownIdx daily < n := by omega
          have hfalse := hfirstk (j - maxDrawdownIdx daily) hk hkn
          have hk2 : maxDrawdownIdx daily + (j - maxDrawdownIdx daily) < daily.length := by
            omega
          have hval : (daily.drop (maxDrawdownIdx daily)).get
              ⟨j - maxDrawdownIdx daily, hk⟩ = daily.get ⟨j, hj⟩ := by
            rw [get_drop_eq daily _ _ hk hk2]
            exact get_congr daily _ _ hk2 hj (by omega)
          rw [hval] at hfalse
          rw [decide_eq_false_iff_not] at hfalse
          exact hfalse hge
      have hgd : daily.getD (maxDrawdownIdx daily) dfltRow
          = daily.get ⟨maxDrawdownIdx daily, hilt'⟩ := by
        rw [List.getD_eq_getElem?_getD, List.getElem?_eq_getElem hilt', List.get_eq_getElem]
        rfl
      unfold recoveryDays
      rw [hfind, hgd, ha, get_congr daily _ _ hin hj heqj]

end Nadex

/-- C7: for a non-empty trade set there is a first daily row attaining
`max_drawdown`; `recovery_days` is the day difference from that row to the
first row at or after it (inclusive) whose drawdown is `≥ 0`, and is `0`
when every row from it onwards has negative drawdown. -/
theorem calculate_kpis_recovery_spec (trades : List Nadex.Trade) (c : Rat)
    (h : trades ≠ []) :
    ∃ i, ∃ hi : i < (Nadex.calculate_kpis trades c).daily_data.length,
      (((Nadex.calculate_kpis trades c).daily_data.get ⟨i, hi⟩).drawdown
          = (Nadex.calculate_kpis trades c).max_drawdown) ∧
      (∀ j (hj : j < (Nadex.calculate_kpis trades c).daily_data.length), j < i →
        ((Nadex.calculate_kpis trades c).daily_data.get ⟨j, hj⟩).drawdown
          ≠ (Nadex.calculate_kpis trades c).max_drawdown) ∧
      ((∀ j (hj : j < (Nadex.calculate_kpis trades c).daily_data.length), i ≤ j →
          ((Nadex.calculate_kpis trades c).daily_data.get ⟨j, hj⟩).drawdown < 0) →
        (Nadex.calculate_kpis trades c).recovery_days = 0) ∧
      (∀ j (hj : j < (Nadex.calculate_kpis trades c).daily_data.length), i ≤ j →
        0 ≤ ((Nadex.calculate_kpis trades c).daily_data.get ⟨j, hj⟩).drawdown →
        (∀ m (hm : m < (Nadex.calculate_kpis trades c).daily_data.length), i ≤ m → m < j →
          ((Nadex.calculate_kpis trades c).daily_data.get ⟨m, hm⟩).drawdown < 0) →
        (Nadex.calculate_kpis trades c).recovery_days
          = ((Nadex.calculate_kpis trades c).daily_data.get ⟨j, hj⟩).date
            - ((Nadex.calculate_kpis trades c).daily_data.get ⟨i, hi⟩).date) := by
  rw [Nadex.calculate_kpis_daily_data_eq trades c h,
    Nadex.calculate_kpis_max_drawdown_eq trades c h,
    Nadex.calculate_kpis_recovery_days_eq trades c h]
  exact Nadex.recoveryDays_spec _ (Nadex.daily_ne_nil trades h)

/-- C7 witness: on a concrete three-trade run there is a first daily row
attaining the maximum drawdown. -/
theorem calculate_kpis_recovery_spec_witness :
    ([⟨0, 10, 1⟩, ⟨5, -12, 1⟩, ⟨9, 13, 1⟩] : List Nadex.Trade) ≠ [] ∧
    (∃ i, ∃ hi : i <
        (Nadex.calculate_kpis [⟨0, 10, 1⟩, ⟨5, -12, 1⟩, ⟨9, 13, 1⟩] 1).daily_data.length,
      ((Nadex.calculate_kpis [⟨0, 10, 1⟩, ⟨5, -12, 1⟩, ⟨9, 13, 1⟩] 1).daily_data.get
          ⟨i, hi⟩).drawdown
        = (Nadex.calculate_kpis [⟨0, 10, 1⟩, ⟨5, -12, 1⟩, ⟨9, 13, 1⟩] 1).max_drawdown) := by
  refine ⟨by decide, ?_⟩
  obtain ⟨i, hi, h1, _⟩ :=
    calculate_kpis_recovery_spec [⟨0, 10, 1⟩, ⟨5, -12, 1⟩, ⟨9, 13, 1⟩] 1 (by decide)
  exact ⟨i, hi, h1⟩

namespace Nadex

theorem length_deltasFrom (l : List Rat) : ∀ prev, (deltasFrom prev l).length = l.length := by
  induction l with
  | nil => intro prev; rfl
  | cons x xs ih => intro prev; simp [deltasFrom, ih]

theorem length_deltas (l : List Rat) : (deltas l).length = l.length := by
  cases l with
  | nil => rfl
  | cons x xs => simp [deltas, length_deltasFrom]

theorem length_gainSeries (prices : List Rat) : (gainSeries prices).length = prices.length := by
  simp [gainSeries, length_deltas]

theorem length_lossSeries (prices : List Rat) : (lossSeries prices).length = prices.length := by
  simp [lossSeries, length_deltas]

/-- Too short a series: every rolling mean is undefined. -/
theorem rollingMean_all_none (period : Nat) (l : List Rat) (h : l.length < period) :
    ∀ x ∈ rollingMean period l, x = none := by
  intro x hx
  obtain ⟨i, hi, hfx⟩ := List.mem_map.mp hx
  have hi' : i < l.length := List.mem_range.mp hi
  rw [← hfx, if_neg]
  omega

/-- Too short a series: the oscillator is undefined at every date. -/
theorem calculate_rsi_all_none (prices : List Rat) (period : Nat)
    (h : prices.length < period) : ∀ x ∈ calculate_rsi prices period, x = none := by
  intro x hx
  obtain ⟨i, hi, hxe⟩ := List.mem_iff_getElem.mp hx
  have hsome : (calculate_rsi prices period)[i]? = some x := by
    rw [List.getElem?_eq_getElem hi, hxe]
  rw [calculate_rsi, List.getElem?_zipWith] at hsome
  cases ha : (rollingMean period (gainSeries prices))[i]? with
  | none => rw [ha] at hsome; simp at hsome
  | some a =>
    rw [ha] at hsome
    cases hb : (rollingMean period (lossSeries prices))[i]? with
    | none => rw [hb] at hsome; simp at hsome
    | some b =>
      rw [hb] at hsome
      have hag : a = none := by
        refine rollingMean_all_none period (gainSeries prices) ?_ a (List.getElem?_mem ha)
        rw [length_gainSeries]
        exact h
      subst hag
      simp at hsome
      exact hsome.symm

/-- Too short a series: every signal is HOLD. -/
theorem signals_all_zero (prices : List Rat) (period : Nat)
    (oversold overbought : Rat) (h : prices.length < period) :
    ∀ s ∈ generate_rsi_signals prices period oversold overbought, s = 0 := by
  intro s hs
  obtain ⟨x, hx, hfx⟩ := List.mem_map.mp hs
  have hxn : x = none := calculate_rsi_all_none prices period h x hx
  rw [← hfx, hxn]
  rfl

/-- Too short a series: the instrument's backtest produces no trades. -/
theorem backtest_ticker_nil_of_short (pricer : Rat → Rat → Rat × Rat)
    (rows : List Obs) (period : Nat) (oversold overbought : Rat)
    (h : rows.length < period) :
    backtest_ticker pricer rows period oversold overbought = [] := by
  rw [backtest_ticker, List.filterMap_eq_nil_iff]
  intro rs hrs
  have hsig : rs.2 = 0 := by
    refine signals_all_zero (rows.map Obs.expValue) period oversold overbought ?_ rs.2
      (List.of_mem_zip hrs).2
    rw [List.length_map]
    exact h
  simp [hsig]

/-- Every trade produced for one instrument's row block carries that
instrument's own ticker. -/
theorem backtest_ticker_ticker_eq (pricer : Rat → Rat → Rat × Rat)
    (rows : List Obs) (period : Nat) (oversold overbought : Rat) (tk : Nat)
    (hall : ∀ r ∈ rows, r.ticker = tk) :
    ∀ t ∈ backtest_ticker pricer rows period oversold overbought, t.ticker = tk := by
  intro t ht
  rw [backtest_ticker] at ht
  obtain ⟨rs, hrs, hsome⟩ := List.mem_filterMap.mp ht
  by_cases hz : rs.2 ≠ 0
  · rw [if_pos hz] at hsome
    have ht' := Option.some.inj hsome
    rw [← ht']
    exact hall rs.1 (List.of_mem_zip hrs).1
  · rw [if_neg hz] at hsome
    exact absurd hsome (by simp)

end Nadex

/-- C5: an instrument with fewer observations than the indicator period has
an everywhere-undefined oscillator, its own backtest yields no trades, and
the whole-history backtest contains no trade for that instrument. -/
theorem backtest_short_series_no_trades (pricer : Rat → Rat → Rat × Rat)
    (data : List Nadex.Obs) (period : Nat) (oversold overbought : Rat) (tk : Nat)
    (h : (data.filter fun r => decide (r.ticker = tk)).length < period) :
    (∀ x ∈ Nadex.calculate_rsi ((data.filter fun r => decide (r.ticker = tk)).map
        Nadex.Obs.expValue) period, x = none) ∧
    Nadex.backtest_ticker pricer (data.filter fun r => decide (r.ticker = tk))
        period oversold overbought = [] ∧
    (Nadex.backtest_strategy pricer data period oversold overbought).filter
        (fun t => decide (t.ticker = tk)) = [] := by
  have hlen : ((data.filter fun r => decide (r.ticker = tk)).map
      Nadex.Obs.expValue).length < period := by
    rw [List.length_map]
    exact h
  refine ⟨Nadex.calculate_rsi_all_none _ period hlen, ?_, ?_⟩
  · exact Nadex.backtest_ticker_nil_of_short pricer _ period oversold overbought h
  · rw [Nadex.backtest_strategy, List.filter_flatMap]
    rw [List.flatMap_eq_nil_iff]
    intro tk' htk'
    by_cases he : tk' = tk
    · subst he
      rw [Nadex.backtest_ticker_nil_of_short pricer _ period oversold overbought h]
      rfl
    · rw [List.filter_eq_nil_iff]
      intro t ht
      have : t.ticker = tk' := by
        refine Nadex.backtest_ticker_ticker_eq pricer _ period oversold overbought tk'
          ?_ t ht
        intro r hr
        exact of_decide_eq_true (List.mem_filter.mp hr).2
      simp [this, he]

/-- C5 witness: a single observation with a 14-day period produces an
undefined oscillator and no trades. -/
theorem backtest_short_series_no_trades_witness :
    ((([⟨0, 0, 100, 100, true⟩] : List Nadex.Obs).filter
        fun r => decide (r.ticker = 0)).length < 14) ∧
    Nadex.backtest_ticker (fun _ _ => (5, 1/2))
        (([⟨0, 0, 100, 100, true⟩] : List Nadex.Obs).filter
          fun r => decide (r.ticker = 0)) 14 30 70 = [] ∧
    (Nadex.backtest_strategy (fun _ _ => (5, 1/2)) [⟨0, 0, 100, 100, true⟩]
        14 30 70).filter (fun t => decide (t.ticker = 0)) = [] := by
  have h := backtest_short_series_no_trades (fun _ _ => (5, 1/2))
    [⟨0, 0, 100, 100, true⟩] 14 30 70 0 (by decide)
  exact ⟨by decide, h.2.1, h.2.2⟩

namespace Nadex

theorem deltasFrom_replicate (x : Rat) (n : Nat) :
    deltasFrom x (List.replicate n x) = List.replicate n (some 0) := by
  induction n with
  | zero => rfl
  | succ k ih => simp [List.replicate_succ, deltasFrom, ih, sub_self]

theorem gainSeries_replicate (x : Rat) (n : Nat) :
    gainSeries (List.replicate n x) = List.replicate n 0 := by
  cases n with
  | zero => rfl
  | succ k =>
    rw [gainSeries, List.replicate_succ, deltas, deltasFrom_replicate]
    simp [max_self, List.replicate_succ]

theorem lossSeries_replicate (x : Rat) (n : Nat) :
    lossSeries (List.replicate n x) = List.replicate n 0 := by
  cases n with
  | zero => rfl
  | succ k =>
    rw [lossSeries, List.replicate_succ, deltas, deltasFrom_replicate]
    simp [max_self, List.replicate_succ]

/-- The rolling mean of an all-zero series is `0` wherever defined. -/
theorem rollingMean_replicate_zero (period n i : Nat) (hi : i < n) (hp : period ≤ i + 1) :
    (rollingMean period (List.replicate n (0 : Rat)))[i]? = some (some 0) := by
  rw [rollingMean]
  have hlen : (List.replicate n (0 : Rat)).length = n := List.length_replicate n 0
  rw [hlen, List.getElem?_map, List.getElem?_range hi]
  simp [hp, List.take_replicate, List.drop_replicate, List.sum_replicate]

end Nadex

/-- C2 counterexample: on a constant 15-value series with period 14, at
index 13 the rolling average loss is defined and equal to `0`, yet the
oscillator is NaN (the rolling average gain is also `0`, so `rs = 0/0`),
not `100`. -/
theorem calculate_rsi_flat_series_counterexample :
    (Nadex.rollingMean 14 (Nadex.lossSeries (List.replicate 15 (100 : Rat))))[13]?
        = some (some 0) ∧
    (Nadex.calculate_rsi (List.replicate 15 (100 : Rat)) 14)[13]? = some none ∧
    (Nadex.calculate_rsi (List.replicate 15 (100 : Rat)) 14)[13]? ≠ some (some 100) := by
  have hg : (Nadex.rollingMean 14 (Nadex.gainSeries (List.replicate 15 (100 : Rat))))[13]?
      = some (some 0) := by
    rw [Nadex.gainSeries_replicate]
    exact Nadex.rollingMean_replicate_zero 14 15 13 (by omega) (by omega)
  have hl : (Nadex.rollingMean 14 (Nadex.lossSeries (List.replicate 15 (100 : Rat))))[13]?
      = some (some 0) := by
    rw [Nadex.lossSeries_replicate]
    exact Nadex.rollingMean_replicate_zero 14 15 13 (by omega) (by omega)
  have hr : (Nadex.calculate_rsi (List.replicate 15 (100 : Rat)) 14)[13]? = some none := by
    rw [Nadex.calculate_rsi, List.getElem?_zipWith, hg, hl]
    simp
  exact ⟨hl, hr, by rw [hr]; simp⟩

/-- C2 amended: at a date where both rolling averages are defined and the
average loss is `0`, the oscillator saturates at exactly `100` when the
average gain is positive; when the average gain is also `0` the oscillator
is undefined (NaN), not `100`. -/
theorem calculate_rsi_zero_loss_saturation (prices : List Rat) (period i : Nat) (ag : Rat)
    (hg : (Nadex.rollingMean period (Nadex.gainSeries prices))[i]? = some (some ag))
    (hl : (Nadex.rollingMean period (Nadex.lossSeries prices))[i]? = some (some 0)) :
    (ag ≠ 0 → (Nadex.calculate_rsi prices period)[i]? = some (some 100)) ∧
    (ag = 0 → (Nadex.calculate_rsi prices period)[i]? = some none) := by
  constructor <;> intro ha <;>
    rw [Nadex.calculate_rsi, List.getElem?_zipWith, hg, hl] <;> simp [ha]

/-- C2 amended witness: for the rising series `[1, 2]` with period 1, at
index 1 the average gain is `1`, the average loss is `0`, and the
oscillator saturates at `100`. -/
theorem calculate_rsi_zero_loss_saturation_witness :
    (Nadex.rollingMean 1 (Nadex.gainSeries [1, 2]))[1]? = some (some 1) ∧
    (Nadex.rollingMean 1 (Nadex.lossSeries [1, 2]))[1]? = some (some 0) ∧
    (Nadex.calculate_rsi [1, 2] 1)[1]? = some (some 100) := by
  have hg : (Nadex.rollingMean 1 (Nadex.gainSeries [1, 2]))[1]? = some (some 1) := by
    norm_num [Nadex.rollingMean, Nadex.gainSeries, Nadex.deltas, Nadex.deltasFrom,
      List.getElem?_map, List.getElem?_range]
  have hl : (Nadex.rollingMean 1 (Nadex.lossSeries [1, 2]))[1]? = some (some 0) := by
    norm_num [Nadex.rollingMean, Nadex.lossSeries, Nadex.deltas, Nadex.deltasFrom,
      List.getElem?_map, List.getElem?_range]
  exact ⟨hg, hl,
    (calculate_rsi_zero_loss_saturation [1, 2] 1 1 1 hg hl).1 (by norm_num)⟩

/-- C9: if any of the three artifacts (trade log, KPI summary, daily
metrics) is missing from the store, loading fails with a `fileNotFound`
error naming a key; the load never surfaces a generic error. -/
theorem load_from_s3_missing_artifact {α : Type} (store : String → String → Option α)
    (bucket : String) (date : Option String) (pre : String) :
    (∀ msg, Nadex.load_from_s3 store bucket date pre
        ≠ Except.error (Nadex.LoadError.generic msg)) ∧
    ((store bucket (Nadex.runFolderPath pre date ++ "/trades.csv") = none ∨
      store bucket (Nadex.runFolderPath pre date ++ "/kpi_summary.json") = none ∨
      store bucket (Nadex.runFolderPath pre date ++ "/daily_metrics.csv") = none) →
      ∃ k, Nadex.load_from_s3 store bucket date pre
        = Except.error (Nadex.LoadError.fileNotFound k)) := by
  cases h1 : store bucket (Nadex.runFolderPath pre date ++ "/trades.csv") with
  | none =>
    refine ⟨fun msg => by simp [Nadex.load_from_s3, h1], fun _ => ?_⟩
    exact ⟨Nadex.runFolderPath pre date ++ "/trades.csv", by simp [Nadex.load_from_s3, h1]⟩
  | some t =>
    cases h2 : store bucket (Nadex.runFolderPath pre date ++ "/kpi_summary.json") with
    | none =>
      refine ⟨fun msg => by simp [Nadex.load_from_s3, h1, h2], fun _ => ?_⟩
      exact ⟨Nadex.runFolderPath pre date ++ "/kpi_summary.json",
        by simp [Nadex.load_from_s3, h1, h2]⟩
    | some k =>
      cases h3 : store bucket (Nadex.runFolderPath pre date ++ "/daily_metrics.csv") with
      | none =>
        refine ⟨fun msg => by simp [Nadex.load_from_s3, h1, h2, h3], fun _ => ?_⟩
        exact ⟨Nadex.runFolderPath pre date ++ "/daily_metrics.csv",
          by simp [Nadex.load_from_s3, h1, h2, h3]⟩
      | some d =>
        refine ⟨fun msg => by simp [Nadex.load_from_s3, h1, h2, h3], fun hmiss => ?_⟩
        rcases hmiss with hm | hm | hm <;> exact absurd hm (by simp)

/-- C9 witness: with an empty store, loading the `latest` run fails with a
`fileNotFound` error. -/
theorem load_from_s3_missing_artifact_witness :
    ((fun _ _ => (none : Option Nat)) : String → String → Option Nat) "bucket"
        (Nadex.runFolderPath "backtest/results" none ++ "/trades.csv") = none ∧
    ∃ k, Nadex.load_from_s3 (fun _ _ => (none : Option Nat)) "bucket" none
        "backtest/results" = Except.error (Nadex.LoadError.fileNotFound k) :=
  ⟨rfl, (load_from_s3_missing_artifact (fun _ _ => (none : Option Nat)) "bucket" none
    "backtest/results").2 (Or.inl rfl)⟩

namespace Nadex

/-- Sign trichotomy of the P&L column: positive, negative and zero trades
partition the trade set. -/
theorem length_filter_sign_trichotomy (l : List BTRow) :
    (l.filter fun r => decide (0 < r.pnl)).length
      + (l.filter fun r => decide (r.pnl < 0)).length
      + (l.filter fun r => decide (r.pnl = 0)).length = l.length := by
  induction l with
  | nil => rfl
  | cons t ts ih =>
    rcases lt_trichotomy (0 : Rat) t.pnl with hpos | hzero | hneg
    · have h2 : ¬ t.pnl < 0 := by linarith
      have h3 : ¬ t.pnl = 0 := by linarith
      simp [List.filter_cons, hpos, h2, h3]
      omega
    · have h1 : ¬ (0 : Rat) < t.pnl := by linarith
      have h2 : ¬ t.pnl < 0 := by linarith
      simp [List.filter_cons, h1, h2, hzero.symm]
      omega
    · have h1 : ¬ (0 : Rat) < t.pnl := by linarith
      have h3 : ¬ t.pnl = 0 := by linarith
      simp [List.filter_cons, h1, hneg, h3]
      omega

end Nadex

/-- C10: `calculate_metrics` counts losing trades with the strict
`pnl < 0`; a zero-P&L trade is counted in neither `winning_trades` nor
`losing_trades`, so their sum falls short of `total_trades`, while
`win_rate` still divides by `total_trades`. -/
theorem calculate_metrics_strict_loss (results : List Nadex.BTRow)
    (h1 : results.filter (fun r => decide (r.signal ≠ 0)) ≠ [])
    (h2 : ∃ t ∈ results.filter (fun r => decide (r.signal ≠ 0)), t.pnl = 0) :
    (Nadex.calculate_metrics results).winning_trades
        = ((results.filter fun r => decide (r.signal ≠ 0)).filter
            fun r => decide (0 < r.pnl)).length ∧
    (Nadex.calculate_metrics results).losing_trades
        = ((results.filter fun r => decide (r.signal ≠ 0)).filter
            fun r => decide (r.pnl < 0)).length ∧
    (Nadex.calculate_metrics results).winning_trades
        + (Nadex.calculate_metrics results).losing_trades
      < (Nadex.calculate_metrics results).total_trades ∧
    (Nadex.calculate_metrics results).win_rate
        = ((Nadex.calculate_metrics results).winning_trades : Rat)
          / ((Nadex.calculate_metrics results).total_trades : Rat) := by
  refine ⟨by simp only [Nadex.calculate_metrics]; rw [if_neg h1],
    by simp only [Nadex.calculate_metrics]; rw [if_neg h1],
    ?_, by simp only [Nadex.calculate_metrics]; rw [if_neg h1]⟩
  have htri := Nadex.length_filter_sign_trichotomy
    (results.filter fun r => decide (r.signal ≠ 0))
  have hzero : 0 < ((results.filter fun r => decide (r.signal ≠ 0)).filter
      fun r => decide (r.pnl = 0)).length := by
    obtain ⟨t, ht, htz⟩ := h2
    have : t ∈ (results.filter fun r => decide (r.signal ≠ 0)).filter
        fun r => decide (r.pnl = 0) :=
      List.mem_filter.mpr ⟨ht, decide_eq_true htz⟩
    exact List.length_pos.mpr (fun hc => by rw [hc] at this; simp at this)
  have hw : (Nadex.calculate_metrics results).winning_trades
      = ((results.filter fun r => decide (r.signal ≠ 0)).filter
          fun r => decide (0 < r.pnl)).length := by
    simp only [Nadex.calculate_metrics]
    rw [if_neg h1]
  have hl : (Nadex.calculate_metrics results).losing_trades
      = ((results.filter fun r => decide (r.signal ≠ 0)).filter
          fun r => decide (r.pnl < 0)).length := by
    simp only [Nadex.calculate_metrics]
    rw [if_neg h1]
  have htot : (Nadex.calculate_metrics results).total_trades
      = (results.filter fun r => decide (r.signal ≠ 0)).length := by
    simp only [Nadex.calculate_metrics]
    rw [if_neg h1]
  rw [hw, hl, htot]
  omega

/-- C10 witness: a single zero-P&L trade is counted in neither bucket, so
`winning + losing = 0 < 1 = total`. -/
theorem calculate_metrics_strict_loss_witness :
    (([⟨1, 0, 5⟩] : List Nadex.BTRow).filter (fun r => decide (r.signal ≠ 0)) ≠ []) ∧
    (Nadex.calculate_metrics [⟨1, 0, 5⟩]).winning_trades
        + (Nadex.calculate_metrics [⟨1, 0, 5⟩]).losing_trades
      < (Nadex.calculate_metrics [⟨1, 0, 5⟩]).total_trades :=
  ⟨by decide, (calculate_metrics_strict_loss [⟨1, 0, 5⟩] (by decide)
    ⟨⟨1, 0, 5⟩, by decide, rfl⟩).2.2.1⟩

namespace Nadex

theorem betterRow_mem (a b : Obs) : betterRow a b = a ∨ betterRow a b = b := by
  rw [betterRow]
  split
  · exact Or.inr rfl
  · exact Or.inl rfl

theorem foldl_betterRow_mem : ∀ (t : List Obs) (a : Obs), t.foldl betterRow a ∈ a :: t := by
  intro t
  induction t with
  | nil => intro a; simp
  | cons b bs ih =>
    intro a
    rw [List.foldl_cons]
    have h := ih (betterRow a b)
    rcases List.mem_cons.mp h with h1 | h1
    · rcases betterRow_mem a b with h2 | h2 <;> rw [h1, h2] <;> simp
    · exact List.mem_cons.mpr (Or.inr (List.mem_cons.mpr (Or.inr h1)))

theorem firstMin_mem (l : List Obs) (p : Obs) (h : firstMin l = some p) : p ∈ l := by
  match l with
  | [] => simp [firstMin] at h
  | a :: t =>
    rw [firstMin] at h
    rw [← Option.some.inj h]
    exact foldl_betterRow_mem t a

theorem firstMin_eq_none (l : List Obs) : firstMin l = none ↔ l = [] := by
  match l with
  | [] => simp [firstMin]
  | a :: t => simp [firstMin]

/-- The row picked for a group carries the group's key. -/
theorem firstMin_filter_key (raw : List Obs) (k : Nat × Int) (p : Obs)
    (h : firstMin (raw.filter fun r => decide (keyOf r = k)) = some p) :
    keyOf p = k := by
  have hp := firstMin_mem _ _ h
  exact of_decide_eq_true (List.mem_filter.mp hp).2

/-- The keys of the picked rows are exactly the requested keys, provided
every requested key occurs in the table. -/
theorem map_keyOf_filterMap_firstMin (raw : List Obs) :
    ∀ (keys : List (Nat × Int)), (∀ k ∈ keys, ∃ r ∈ raw, keyOf r = k) →
      (keys.filterMap fun k =>
        firstMin (raw.filter fun r => decide (keyOf r = k))).map keyOf = keys := by
  intro keys
  induction keys with
  | nil => intro _; rfl
  | cons k ks ih =>
    intro hall
    obtain ⟨r, hr, hk⟩ := hall k (List.mem_cons_self k ks)
    have hrf : r ∈ raw.filter fun x => decide (keyOf x = k) :=
      List.mem_filter.mpr ⟨hr, decide_eq_true hk⟩
    have hne : raw.filter (fun x => decide (keyOf x = k)) ≠ [] := by
      intro hc
      rw [hc] at hrf
      simp at hrf
    cases hfm : firstMin (raw.filter fun x => decide (keyOf x = k)) with
    | none => exact absurd ((firstMin_eq_none _).mp hfm) hne
    | some p =>
      rw [List.filterMap_cons, hfm, List.map_cons, firstMin_filter_key raw k p hfm,
        ih fun k2 hk2 => hall k2 (List.mem_cons.mpr (Or.inr hk2))]

/-- With pairwise-distinct keys, filtering on a row's own key returns that
row alone. -/
theorem filter_eq_singleton_of_nodup_keys :
    ∀ (l : List Obs), (l.map keyOf).Nodup → ∀ r ∈ l,
      l.filter (fun x => decide (keyOf x = keyOf r)) = [r] := by
  intro l
  induction l with
  | nil => intro _ r hr; simp at hr
  | cons a t ih =>
    intro hn r hr
    have hn' := hn
    rw [List.map_cons, List.nodup_cons] at hn'
    obtain ⟨hka, hnt⟩ := hn'
    rcases List.mem_cons.mp hr with h1 | h1
    · subst h1
      rw [List.filter_cons, if_pos (by simp)]
      have hnil : t.filter (fun x => decide (keyOf x = keyOf r)) = [] := by
        rw [List.filter_eq_nil_iff]
        intro x hx hc
        have : keyOf x = keyOf r := of_decide_eq_true hc
        exact hka (this ▸ List.mem_map_of_mem keyOf hx)
      rw [hnil]
    · have hne : keyOf a ≠ keyOf r := by
        intro hc
        exact hka (hc ▸ List.mem_map_of_mem keyOf h1)
      rw [List.filter_cons, if_neg (by simp [hne])]
      exact ih hnt r h1

/-- A table with pairwise-distinct keys, sorted by key, is a fixed point of
the aggregation. -/
theorem aggregate_to_daily_fixed (l : List Obs) (hn : (l.map keyOf).Nodup)
    (hs : List.Sorted keyLE l) : aggregate_to_daily l = l := by
  rw [aggregate_to_daily]
  have hd : (l.map keyOf).dedup = l.map keyOf := List.dedup_eq_self.mpr hn
  rw [hd, List.filterMap_map]
  have hcong : ∀ r ∈ l,
      ((fun k => firstMin (l.filter fun x => decide (keyOf x = k))) ∘ keyOf) r
        = some r := by
    intro r hr
    show firstMin (l.filter fun x => decide (keyOf x = keyOf r)) = some r
    rw [filter_eq_singleton_of_nodup_keys l hn r hr]
    rfl
  rw [List.filterMap_congr hcong]
  rw [show l.filterMap (fun r => some r) = l from List.filterMap_some l]
  exact hs.insertionSort_eq

/-- The output of the aggregation has pairwise-distinct keys. -/
theorem aggregate_to_daily_nodup_keys (raw : List Obs) :
    ((aggregate_to_daily raw).map keyOf).Nodup := by
  have hall : ∀ k ∈ (raw.map keyOf).dedup, ∃ r ∈ raw, keyOf r = k := by
    intro k hk
    obtain ⟨r, hr, hke⟩ := List.mem_map.mp (List.mem_dedup.mp hk)
    exact ⟨r, hr, hke⟩
  have hpicked : (((raw.map keyOf).dedup).filterMap fun k =>
      firstMin (raw.filter fun r => decide (keyOf r = k))).map keyOf
        = (raw.map keyOf).dedup :=
    map_keyOf_filterMap_firstMin raw _ hall
  have hperm : List.Perm ((aggregate_to_daily raw).map keyOf)
      ((((raw.map keyOf).dedup).filterMap fun k =>
        firstMin (raw.filter fun r => decide (keyOf r = k))).map keyOf) :=
    (List.perm_insertionSort keyLE _).map keyOf
  rw [hpicked] at hperm
  exact hperm.symm.nodup (List.nodup_dedup _)

end Nadex

/-- C8: `aggregate_to_daily` is idempotent — applying it twice gives the
same table as applying it once. -/
theorem aggregate_to_daily_idempotent (raw : List Nadex.Obs) :
    Nadex.aggregate_to_daily (Nadex.aggregate_to_daily raw)
      = Nadex.aggregate_to_daily raw :=
  Nadex.aggregate_to_daily_fixed _ (Nadex.aggregate_to_daily_nodup_keys raw)
    (List.sorted_insertionSort Nadex.keyLE _)

namespace Nadex

open Real MeasureTheory ProbabilityTheory Set Filter

theorem gaussianPDFReal_std (x : Real) :
    gaussianPDFReal 0 1 x = (Real.sqrt (2 * π))⁻¹ * Real.exp (-x ^ 2 / 2) := by
  rw [gaussianPDFReal]
  norm_num

theorem integrableOn_x_mul_exp_tail :
    IntegrableOn (fun x : Real => x * Real.exp (-x ^ 2 / 2)) (Ioi 5) := by
  have h : (fun x : Real => x * Real.exp (-x ^ 2 / 2))
      = fun x : Real => x * Real.exp (-(1 / 2) * x ^ 2) := by
    funext x
    congr 1
    ring_nf
  rw [h]
  exact (integrable_mul_exp_neg_mul_sq (by norm_num)).integrableOn

theorem integral_x_mul_exp_tail :
    ∫ x in Ioi (5 : Real), x * Real.exp (-x ^ 2 / 2) = Real.exp (-(25 : Real) / 2) := by
  have hderiv : ∀ x ∈ Ici (5 : Real),
      HasDerivAt (fun y : Real => -Real.exp (-y ^ 2 / 2)) (x * Real.exp (-x ^ 2 / 2)) x := by
    intro x _
    have h1 : HasDerivAt (fun y : Real => -y ^ 2 / 2) (-x) x := by
      have h2 := (hasDerivAt_pow 2 x).neg.div_const 2
      convert h2 using 1
      push_cast
      ring
    have h3 := (h1.exp).neg
    convert h3 using 1
    ring
  have htend : Tendsto (fun y : Real => -Real.exp (-y ^ 2 / 2)) atTop (nhds 0) := by
    have h3 : Tendsto (fun y : Real => -y ^ 2 / 2) atTop atBot := by
      have h1 : Tendsto (fun y : Real => -(1 / 2) * y ^ 2) atTop atBot :=
        (tendsto_const_mul_atBot_of_neg (by norm_num)).mpr (tendsto_pow_atTop two_ne_zero)
      have h4 : (fun y : Real => -y ^ 2 / 2) = fun y : Real => -(1 / 2) * y ^ 2 := by
        funext y
        ring
      rw [h4]
      exact h1
    have h2 : Tendsto (fun y : Real => Real.exp (-y ^ 2 / 2)) atTop (nhds 0) :=
      Real.tendsto_exp_atBot.comp h3
    simpa using h2.neg
  have hint := integral_Ioi_of_hasDerivAt_of_tendsto' hderiv integrableOn_x_mul_exp_tail htend
  rw [hint]
  norm_num

theorem gaussian_tail_le :
    ∫ x in Ioi (5 : Real), gaussianPDFReal 0 1 x ≤ 1 / 20 := by
  have hc : (0 : Real) < Real.sqrt (2 * π) := Real.sqrt_pos.mpr (by positivity)
  have hinv : (0 : Real) < (Real.sqrt (2 * π))⁻¹ := inv_pos.mpr hc
  have hmono : ∫ x in Ioi (5 : Real), gaussianPDFReal 0 1 x
      ≤ ∫ x in Ioi (5 : Real),
          (Real.sqrt (2 * π))⁻¹ * (1 / 5) * (x * Real.exp (-x ^ 2 / 2)) := by
    refine setIntegral_mono_on (integrable_gaussianPDFReal 0 1).integrableOn
      (integrableOn_x_mul_exp_tail.const_mul _) measurableSet_Ioi ?_
    intro x hx
    have hx5 : (5 : Real) < x := hx
    have he := Real.exp_pos (-x ^ 2 / 2)
    rw [gaussianPDFReal_std]
    nlinarith [mul_nonneg (mul_nonneg hinv.le he.le) (by linarith : (0 : Real) ≤ x - 5)]
  have heval : ∫ x in Ioi (5 : Real),
      (Real.sqrt (2 * π))⁻¹ * (1 / 5) * (x * Real.exp (-x ^ 2 / 2))
        = (Real.sqrt (2 * π))⁻¹ * (1 / 5) * Real.exp (-(25 : Real) / 2) := by
    rw [MeasureTheory.integral_mul_left, integral_x_mul_exp_tail]
  have hsq : (2 : Real) ≤ Real.sqrt (2 * π) := by
    rw [Real.le_sqrt (by norm_num) (by positivity)]
    nlinarith [Real.two_le_pi]
  have hinv2 : (Real.sqrt (2 * π))⁻¹ ≤ 1 / 2 := by
    rw [show (1 : Real) / 2 = (2 : Real)⁻¹ by norm_num]
    exact inv_anti₀ (by norm_num) hsq
  have hr : Real.exp (-(25 : Real) / 2) ≤ 1 / 2 := by
    have h1 : Real.exp (-(25 : Real) / 2) ≤ Real.exp (-1) :=
      Real.exp_le_exp.mpr (by norm_num)
    have h2 : Real.exp (-1 : Real) = (Real.exp 1)⁻¹ := Real.exp_neg 1
    have h3 : (2 : Real) ≤ Real.exp 1 :=
      le_of_lt (lt_trans (by norm_num) Real.exp_one_gt_d9)
    have h4 : (Real.exp 1)⁻¹ ≤ 1 / 2 := by
      rw [show (1 : Real) / 2 = (2 : Real)⁻¹ by norm_num]
      exact inv_anti₀ (by norm_num) h3
    linarith
  have hrexp := Real.exp_pos (-(25 : Real) / 2)
  calc ∫ x in Ioi (5 : Real), gaussianPDFReal 0 1 x
      ≤ (Real.sqrt (2 * π))⁻¹ * (1 / 5) * Real.exp (-(25 : Real) / 2) := by
        rw [← heval]; exact hmono
    _ ≤ 1 / 20 := by nlinarith

theorem normCdf_one_sub_tail :
    normCdf 5 = 1 - ∫ x in Ioi (5 : Real), gaussianPDFReal 0 1 x := by
  have hsplit : (∫ x in Iic (5 : Real), gaussianPDFReal 0 1 x)
      + ∫ x in Ioi (5 : Real), gaussianPDFReal 0 1 x
        = ∫ x, gaussianPDFReal 0 1 x :=
    intervalIntegral.integral_Iic_add_Ioi (integrable_gaussianPDFReal 0 1).integrableOn
      (integrable_gaussianPDFReal 0 1).integrableOn
  have htot : ∫ x, gaussianPDFReal 0 1 x = 1 :=
    integral_gaussianPDFReal_eq_one 0 one_ne_zero
  rw [normCdf]
  linarith

/-- The standard normal CDF at five standard deviations exceeds `0.95`. -/
theorem normCdf_five : (0.95 : Real) ≤ normCdf 5 := by
  rw [normCdf_one_sub_tail]
  have h := gaussian_tail_le
  norm_num at h ⊢
  linarith

end Nadex

/-- C4: the probabilistic pricer returns the standard-normal CDF of
`(E - K) / (K * σ)` (with `σ` floored at `0.01`) clamped to
`[0.05, 0.95]`, and an entry cost of `max_payout` times that probability,
always inside `[0.05 * max_payout, 0.95 * max_payout]`; at `E = 105`,
`K = 100`, `σ = 0.01`, `max_payout = 10` it returns exactly `(9.5, 0.95)`. -/
theorem calculate_fair_entry_cost_spec (E K mp vol : Real)
    (hK : 0 < K) (hmp : 0 ≤ mp) :
    (Nadex.calculate_fair_entry_cost E K mp vol).2
        = max 0.05 (min 0.95 (Nadex.normCdf
            ((E - K) / (K * (if vol ≤ 0 then 0.01 else vol))))) ∧
    (Nadex.calculate_fair_entry_cost E K mp vol).1
        = mp * (Nadex.calculate_fair_entry_cost E K mp vol).2 ∧
    0.05 * mp ≤ (Nadex.calculate_fair_entry_cost E K mp vol).1 ∧
    (Nadex.calculate_fair_entry_cost E K mp vol).1 ≤ 0.95 * mp ∧
    Nadex.calculate_fair_entry_cost 105 100 10 0.01 = (9.5, 0.95) := by
  have hplo : (0.05 : Real) ≤ Nadex.calculate_probability_itm E K vol :=
    le_max_left _ _
  have hphi : Nadex.calculate_probability_itm E K vol ≤ 0.95 := by
    rw [Nadex.calculate_probability_itm]
    exact max_le (by norm_num) (min_le_left _ _)
  have hprob : Nadex.calculate_probability_itm 105 100 0.01 = 0.95 := by
    rw [Nadex.calculate_probability_itm]
    have hif : (if (0.01 : Real) ≤ 0 then (0.01 : Real) else 0.01) = 0.01 := by
      norm_num
    have hz : ((105 : Real) - 100) / (100 * (if (0.01 : Real) ≤ 0 then 0.01 else 0.01))
        = 5 := by
      rw [hif]
      norm_num
    simp only [hz]
    rw [min_eq_left ?hmin, max_eq_right ?hmax]
    case hmin => exact Nadex.normCdf_five
    case hmax => norm_num
  refine ⟨rfl, rfl, ?_, ?_, ?_⟩
  · have hgoal : (0.05 : Real) * mp ≤ mp * Nadex.calculate_probability_itm E K vol := by
      nlinarith
    exact hgoal
  · have hgoal : mp * Nadex.calculate_probability_itm E K vol ≤ 0.95 * mp := by
      nlinarith
    exact hgoal
  · rw [Nadex.calculate_fair_entry_cost, hprob]
    norm_num

/-- C4 witness: the documented scenario, `E = 105`, `K = 100`, `σ = 0.01`,
`max_payout = 10`, prices at probability `0.95` and entry cost `9.5`. -/
theorem calculate_fair_entry_cost_spec_witness :
    (0 : Real) < 100 ∧ (0 : Real) ≤ 10 ∧
    Nadex.calculate_fair_entry_cost 105 100 10 0.01 = (9.5, 0.95) :=
  ⟨by norm_num, by norm_num,
    (calculate_fair_entry_cost_spec 105 100 10 0.01 (by norm_num)
      (by norm_num)).2.2.2.2⟩

/-- C3: on the empty trade set `calculate_kpis` returns (without raising)
the all-zero record: zero counts, rates, P&L, drawdown and recovery,
`none` dates and an empty daily table. -/
theorem calculate_kpis_empty (c : Rat) :
    Nadex.calculate_kpis [] c =
      { win_rate := 0, total_trades := 0, wins := 0, losses := 0, gross_pnl := 0,
        commissions := 0, net_pnl := 0, max_drawdown := 0, max_drawdown_pct := 0,
        recovery_days := 0, date_start := none, date_end := none, daily_data := [] } := by
  rfl
